import Mathlib

/-! Shallow embedding of the retirement auto-savings core
(`src/app/domain.py`, `src/app/returns.py`) and proofs of its
specified properties.

Modelling conventions:
* Monetary amounts and rates are exact rationals (`ℚ`); the Python source
  uses binary floats, which we idealise as exact arithmetic.
* Timestamps are integers (`Date := ℤ`), seconds since an epoch.  The
  source's string round-trip normalisation truncates to second
  granularity, hence it is the identity on this representation.
* The Python field name `end` is a Lean keyword, so period structures
  use `stop` for it.
-/

namespace AutoSavings

abbrev Date := ℤ

/-- Fixed amount override period (q) — `QPeriod` in `schemas.py`. -/
structure QPeriod where
  fixed : ℚ
  start : Date
  stop : Date
deriving DecidableEq

/-- Extra amount addition period (p) — `PPeriod` in `schemas.py`. -/
structure PPeriod where
  extra : ℚ
  start : Date
  stop : Date
deriving DecidableEq

/-- Evaluation grouping period (k) — `KPeriod` in `schemas.py`. -/
structure KPeriod where
  start : Date
  stop : Date
deriving DecidableEq

/-- A parsed transaction tuple `(date, amount, ceiling, remanent)` as
produced by `parse_expenses` and threaded through the rule functions. -/
structure Txn where
  date : Date
  amount : ℚ
  ceiling : ℚ
  remanent : ℚ
deriving DecidableEq

/-- Model of `_in_range` in `domain.py`: inclusive `start <= d <= end`. -/
def in_range (d start stop : Date) : Bool :=
  decide (start ≤ d ∧ d ≤ stop)

/-- Model of `parse_expense` in `domain.py`:
`ceiling = math.ceil(amount / 100) * 100`, `remanent = ceiling - amount`. -/
def parse_expense (_timestamp : Date) (amount : ℚ) : ℚ × ℚ :=
  let ceiling : ℚ := (⌈amount / 100⌉ : ℤ) * 100
  let remanent := ceiling - amount
  (ceiling, remanent)

/-- Model of `parse_expenses` in `domain.py`: convert expenses to
`(date, amount, ceiling, remanent)`.  The date normalisation
(strftime/strptime round trip at second granularity) is the identity on
our integer-second dates. -/
def parse_expenses (expenses : List (Date × ℚ)) : List Txn :=
  expenses.map (fun e =>
    let cr := parse_expense e.1 e.2
    { date := e.1, amount := e.2, ceiling := cr.1, remanent := cr.2 })

/-- Claim C3 helper: the ceiling component of `parse_expense`. -/
lemma parse_expense_ceiling_eq (ts : Date) (amount : ℚ) :
    (parse_expense ts amount).1 = ((⌈amount / 100⌉ : ℤ) : ℚ) * 100 := rfl

lemma parse_expense_remanent_eq (ts : Date) (amount : ℚ) :
    (parse_expense ts amount).2 = (parse_expense ts amount).1 - amount := rfl

/-- C3: for every amount ≥ 0, `parse_expense` returns a ceiling that is a
multiple of 100 with `ceiling ≥ amount` and `ceiling − 100 < amount`, and a
remanent `= ceiling − amount` lying in `[0, 100)`; if the amount is an exact
multiple of 100 (including 0) then the ceiling equals the amount and the
remanent is 0. -/
theorem C3_parse_expense_ceiling_correct (ts : Date) (amount : ℚ)
    (h : 0 ≤ amount) :
    (∃ k : ℤ, (parse_expense ts amount).1 = 100 * k) ∧
    amount ≤ (parse_expense ts amount).1 ∧
    (parse_expense ts amount).1 - 100 < amount ∧
    (parse_expense ts amount).2 = (parse_expense ts amount).1 - amount ∧
    0 ≤ (parse_expense ts amount).2 ∧
    (parse_expense ts amount).2 < 100 ∧
    (∀ k : ℤ, amount = 100 * k →
      (parse_expense ts amount).1 = amount ∧ (parse_expense ts amount).2 = 0) := by
  have hceil : (parse_expense ts amount).1 = ((⌈amount / 100⌉ : ℤ) : ℚ) * 100 :=
    rfl
  have hle : amount / 100 ≤ ((⌈amount / 100⌉ : ℤ) : ℚ) := Int.le_ceil _
  have hlt : ((⌈amount / 100⌉ : ℤ) : ℚ) < amount / 100 + 1 :=
    Int.ceil_lt_add_one _
  have hge : amount ≤ (parse_expense ts amount).1 := by
    rw [hceil]; linarith
  have hlt100 : (parse_expense ts amount).1 - 100 < amount := by
    rw [hceil]; linarith
  refine ⟨⟨⌈amount / 100⌉, by rw [hceil]; ring⟩, hge, hlt100, rfl, ?_, ?_, ?_⟩
  · have : (parse_expense ts amount).2 = (parse_expense ts amount).1 - amount :=
      rfl
    rw [this]; linarith
  · have : (parse_expense ts amount).2 = (parse_expense ts amount).1 - amount :=
      rfl
    rw [this]; linarith
  · intro k hk
    have hdiv : amount / 100 = (k : ℚ) := by rw [hk]; ring
    have hc : ⌈amount / 100⌉ = k := by rw [hdiv, Int.ceil_intCast]
    constructor
    · rw [hceil, hc, hk]; ring
    · have : (parse_expense ts amount).2 = (parse_expense ts amount).1 - amount :=
        rfl
      rw [this, hceil, hc, hk]; ring

/-- C3 witness at `amount = 250`. -/
theorem C3_witness :
    (0 : ℚ) ≤ 250 ∧
    ((∃ k : ℤ, (parse_expense 0 250).1 = 100 * k) ∧
     (250 : ℚ) ≤ (parse_expense 0 250).1 ∧
     (parse_expense 0 250).1 - 100 < 250 ∧
     (parse_expense 0 250).2 = (parse_expense 0 250).1 - 250 ∧
     0 ≤ (parse_expense 0 250).2 ∧
     (parse_expense 0 250).2 < 100 ∧
     (∀ k : ℤ, (250 : ℚ) = 100 * k →
       (parse_expense 0 250).1 = 250 ∧ (parse_expense 0 250).2 = 0)) :=
  ⟨by norm_num, C3_parse_expense_ceiling_correct 0 250 (by norm_num)⟩

/-- C8: every transaction produced by `parse_expenses` (before any rule
application) satisfies `ceiling − remanent = amount` exactly. -/
theorem C8_parse_expenses_ceiling_minus_remanent (expenses : List (Date × ℚ)) :
    ∀ t ∈ parse_expenses expenses, t.ceiling - t.remanent = t.amount := by
  intro t ht
  simp only [parse_expenses, List.mem_map] at ht
  obtain ⟨e, _, rfl⟩ := ht
  simp only [parse_expense]
  ring

/-- C8 witness on the concrete expense `(0, 250)`. -/
theorem C8_witness :
    ({ date := 0, amount := 250, ceiling := (parse_expense 0 250).1,
       remanent := (parse_expense 0 250).2 } : Txn).ceiling -
    ({ date := 0, amount := 250, ceiling := (parse_expense 0 250).1,
       remanent := (parse_expense 0 250).2 } : Txn).remanent =
    ({ date := 0, amount := 250, ceiling := (parse_expense 0 250).1,
       remanent := (parse_expense 0 250).2 } : Txn).amount :=
  C8_parse_expenses_ceiling_minus_remanent [(0, 250)] _ (List.mem_cons_self _ _)

/-! Override (q) rules.  The source collects `(q.start, q.fixed)` for the
matching periods, sorts that list stably by `start` in descending order
(Python's `list.sort(key, reverse=True)` is stable) and takes the head.
`insert_desc`/`sort_desc` reproduce exactly that stable descending order:
an element is placed after every earlier element with a strictly greater
key, and before earlier elements with an equal key never — ties keep input
order. -/

/-- Stable descending insertion by the first component. -/
def insert_desc (x : Date × ℚ) : List (Date × ℚ) → List (Date × ℚ)
  | [] => [x]
  | y :: ys => if x.1 < y.1 then y :: insert_desc x ys else x :: y :: ys

/-- Stable sort by first component, descending — the model of Python's
`matching.sort(key=lambda x: x[0], reverse=True)`. -/
def sort_desc : List (Date × ℚ) → List (Date × ℚ)
  | [] => []
  | x :: xs => insert_desc x (sort_desc xs)

/-- Model of `apply_q_rules` in `domain.py`: replace the remanent with the fixed
amount when the transaction date falls in a q period; with several matches
use the one with the latest start, ties going to the first in the list. -/
def apply_q_rules (transactions : List Txn) (q_periods : List QPeriod) :
    List Txn :=
  if q_periods.isEmpty then transactions
  else transactions.map (fun t =>
    let matching := (q_periods.filter
      (fun q => in_range t.date q.start q.stop)).map (fun q => (q.start, q.fixed))
    match sort_desc matching with
    | [] => t
    | m :: _ => { t with remanent := m.2 })

/-- Modelled from the spec sentence for C1: select, among the periods
containing the date, the one with the latest start, ties broken in favour
of the period appearing earliest in the input list; `none` when no period
contains the date. -/
def choose_override (d : Date) : List QPeriod → Option QPeriod
  | [] => none
  | q :: qs =>
    if in_range d q.start q.stop then
      match choose_override d qs with
      | none => some q
      | some r => if q.start < r.start then some r else some q
    else choose_override d qs

/-- Head of the stable descending sort, expressed as a left-biased
maximum scan. -/
def first_max_pair : List (Date × ℚ) → Option (Date × ℚ)
  | [] => none
  | x :: xs =>
    match first_max_pair xs with
    | none => some x
    | some y => if x.1 < y.1 then some y else some x

lemma insert_desc_head (x : Date × ℚ) (l : List (Date × ℚ)) :
    (insert_desc x l).head? =
      match l.head? with
      | none => some x
      | some y => if x.1 < y.1 then some y else some x := by
  cases l with
  | nil => rfl
  | cons y ys =>
    simp only [insert_desc, List.head?]
    by_cases h : x.1 < y.1
    · simp [h]
    · simp [h]

lemma sort_desc_head (l : List (Date × ℚ)) :
    (sort_desc l).head? = first_max_pair l := by
  induction l with
  | nil => rfl
  | cons x xs ih =>
    simp only [sort_desc, first_max_pair, insert_desc_head, ih]

/-- The scan `first_max_pair` over filtered-and-mapped periods agrees with the
spec-side chooser `choose_override`. -/
lemma first_max_pair_filter_eq_choose (d : Date) (qs : List QPeriod) :
    first_max_pair ((qs.filter (fun q => in_range d q.start q.stop)).map
        (fun q => (q.start, q.fixed))) =
      (choose_override d qs).map (fun q => (q.start, q.fixed)) := by
  induction qs with
  | nil => rfl
  | cons q rest ih =>
    by_cases h : in_range d q.start q.stop
    · simp only [List.filter_cons, h, List.map_cons, first_max_pair, ih,
        choose_override, if_pos h]
      cases hc : choose_override d rest with
      | none => simp
      | some r =>
        simp only [Option.map_some]
        by_cases hlt : q.start < r.start
        · simp [hlt]
        · simp [hlt]
    · rw [List.filter_cons, if_neg h]
      simp only [choose_override, if_neg h]
      exact ih

lemma choose_override_eq_none (d : Date) (qs : List QPeriod)
    (h : choose_override d qs = none) :
    ∀ q ∈ qs, in_range d q.start q.stop = false := by
  induction qs with
  | nil => intro q hq; cases hq
  | cons q rest ih =>
    simp only [choose_override] at h
    by_cases hq : in_range d q.start q.stop
    · rw [if_pos hq] at h
      cases hc : choose_override d rest with
      | none =>
        rw [hc] at h
        exact absurd (h : some q = none) (by simp)
      | some s =>
        rw [hc] at h
        have h3 : (if q.start < s.start then some s else some q) = none := h
        split_ifs at h3
    · rw [if_neg hq] at h
      intro r hr
      rcases List.mem_cons.mp hr with rfl | hr2
      · simpa using hq
      · exact ih h r hr2

lemma choose_override_none_of_all (d : Date) (qs : List QPeriod)
    (h : ∀ q ∈ qs, in_range d q.start q.stop = false) :
    choose_override d qs = none := by
  induction qs with
  | nil => rfl
  | cons q rest ih =>
    have hq : in_range d q.start q.stop = false := h q (by simp)
    simp only [choose_override]
    rw [if_neg (by simp [hq])]
    exact ih (fun r hr => h r (by simp [hr]))

/-- When the chooser selects a period, that period occurs at some position
`j` of the input list, contains the date, has a start at least as late as
every other containing period, and every containing period at an earlier
position has a strictly earlier start (so equal starts are resolved in
favour of the earliest listed period). -/
lemma choose_override_eq_some (d : Date) (qs : List QPeriod) (q : QPeriod)
    (h : choose_override d qs = some q) :
    ∃ j, ∃ hj : j < qs.length,
      qs.get ⟨j, hj⟩ = q ∧
      in_range d q.start q.stop = true ∧
      (∀ r ∈ qs, in_range d r.start r.stop = true → r.start ≤ q.start) ∧
      (∀ j2, ∀ hj2 : j2 < qs.length, j2 < j →
        in_range d (qs.get ⟨j2, hj2⟩).start (qs.get ⟨j2, hj2⟩).stop = true →
        (qs.get ⟨j2, hj2⟩).start < q.start) := by
  induction qs generalizing q with
  | nil => cases h
  | cons q0 rest ih =>
    simp only [choose_override] at h
    by_cases h0 : in_range d q0.start q0.stop
    · rw [if_pos h0] at h
      cases hc : choose_override d rest with
      | none =>
        rw [hc] at h
        have hq : q0 = q := by
          have h2 : some q0 = some q := h
          exact Option.some.inj h2
        subst hq
        refine ⟨0, by simp, rfl, h0, ?_, ?_⟩
        · intro r hr hrin
          rcases List.mem_cons.mp hr with rfl | hr2
          · exact le_refl _
          · have := choose_override_eq_none d rest hc r hr2
            rw [this] at hrin; cases hrin
        · intro j2 hj2 hlt _; cases hlt
      | some s =>
        rw [hc] at h
        have h3 : (if q0.start < s.start then some s else some q0) = some q := h
        by_cases hlt : q0.start < s.start
        · rw [if_pos hlt] at h3
          have hq : s = q := Option.some.inj h3
          subst hq
          obtain ⟨j, hj, hget, hin, hmax, hfirst⟩ := ih s hc
          refine ⟨j + 1, by simpa using Nat.succ_lt_succ hj, ?_, hin, ?_, ?_⟩
          · simpa using hget
          · intro r hr hrin
            rcases List.mem_cons.mp hr with rfl | hr2
            · exact le_of_lt hlt
            · exact hmax r hr2 hrin
          · intro j2 hj2 hj2lt hj2in
            cases j2 with
            | zero => simpa using hlt
            | succ k =>
              have hk : k < rest.length := by simpa using hj2
              have := hfirst k hk (by omega)
              simpa using this (by simpa using hj2in)
        · rw [if_neg hlt] at h3
          have hq : q0 = q := Option.some.inj h3
          subst hq
          obtain ⟨j, hj, hget, hin, hmax, hfirst⟩ := ih s hc
          refine ⟨0, by simp, rfl, h0, ?_, ?_⟩
          · intro r hr hrin
            rcases List.mem_cons.mp hr with rfl | hr2
            · exact le_refl _
            · exact le_trans (hmax r hr2 hrin) (le_of_not_lt hlt)
          · intro j2 hj2 hlt2 _; cases hlt2
    · rw [if_neg h0] at h
      obtain ⟨j, hj, hget, hin, hmax, hfirst⟩ := ih q h
      refine ⟨j + 1, by simpa using Nat.succ_lt_succ hj, by simpa using hget,
        hin, ?_, ?_⟩
      · intro r hr hrin
        rcases List.mem_cons.mp hr with rfl | hr2
        · rw [hrin] at h0; cases h0 rfl
        · exact hmax r hr2 hrin
      · intro j2 hj2 hj2lt hj2in
        cases j2 with
        | zero =>
          exfalso
          exact h0 (by simpa using hj2in)
        | succ k =>
          have hk : k < rest.length := by simpa using hj2
          have := hfirst k hk (by omega)
          simpa using this (by simpa using hj2in)

/-- The function `apply_q_rules` is exactly the per-transaction substitution of the
chosen override period's fixed amount. -/
lemma apply_q_rules_eq_choose (txns : List Txn) (qs : List QPeriod) :
    apply_q_rules txns qs = txns.map (fun t =>
      match choose_override t.date qs with
      | none => t
      | some q => { t with remanent := q.fixed }) := by
  by_cases hqs : qs.isEmpty
  · rw [apply_q_rules, if_pos hqs]
    have : qs = [] := by simpa [List.isEmpty_iff] using hqs
    subst this
    simp [choose_override]
  · rw [apply_q_rules, if_neg hqs]
    apply List.map_congr_left
    intro t _
    have hhead := sort_desc_head ((qs.filter
      (fun q => in_range t.date q.start q.stop)).map (fun q => (q.start, q.fixed)))
    rw [first_max_pair_filter_eq_choose] at hhead
    cases hc : choose_override t.date qs with
    | none =>
      rw [hc] at hhead
      simp only [Option.map_none'] at hhead
      have hnil := List.head?_eq_none_iff.mp hhead
      simp only [hnil]
    | some q =>
      rw [hc] at hhead
      simp only [Option.map_some'] at hhead
      cases hs : sort_desc ((qs.filter
          (fun q => in_range t.date q.start q.stop)).map
          (fun q => (q.start, q.fixed))) with
      | nil => rw [hs] at hhead; cases hhead
      | cons m tl =>
        rw [hs] at hhead
        have hm : m = (q.start, q.fixed) := by
          simpa using hhead
        simp only [hs, hm]

/-- C1: `apply_q_rules` replaces the remanent of a transaction by the fixed
amount of exactly one containing override period — the one with the latest
start, ties resolved in favour of the earliest listed — leaves transactions
with no containing period unchanged, and is the identity on an empty period
list. -/
theorem C1_apply_q_rules_selection (txns : List Txn) (qs : List QPeriod) :
    apply_q_rules txns [] = txns ∧
    apply_q_rules txns qs = txns.map (fun t =>
      match choose_override t.date qs with
      | none => t
      | some q => { t with remanent := q.fixed }) ∧
    (∀ d, choose_override d qs = none ↔
      ∀ q ∈ qs, in_range d q.start q.stop = false) ∧
    (∀ d q, choose_override d qs = some q →
      ∃ j, ∃ hj : j < qs.length,
        qs.get ⟨j, hj⟩ = q ∧
        in_range d q.start q.stop = true ∧
        (∀ r ∈ qs, in_range d r.start r.stop = true → r.start ≤ q.start) ∧
        (∀ j2, ∀ hj2 : j2 < qs.length, j2 < j →
          in_range d (qs.get ⟨j2, hj2⟩).start (qs.get ⟨j2, hj2⟩).stop = true →
          (qs.get ⟨j2, hj2⟩).start < q.start)) := by
  refine ⟨?_, apply_q_rules_eq_choose txns qs, ?_, ?_⟩
  · rfl
  · intro d
    exact ⟨choose_override_eq_none d qs, choose_override_none_of_all d qs⟩
  · intro d q h
    exact choose_override_eq_some d qs q h

/-- C1 witness: date 4 falls in both periods; the second listed has the
later start (3 vs 0) and its fixed amount is selected. -/
theorem C1_witness :
    ∃ j, ∃ hj : j < ([⟨5, 0, 10⟩, ⟨7, 3, 10⟩] : List QPeriod).length,
      ([⟨5, 0, 10⟩, ⟨7, 3, 10⟩] : List QPeriod).get ⟨j, hj⟩ = ⟨7, 3, 10⟩ ∧
      in_range 4 (QPeriod.mk 7 3 10).start (QPeriod.mk 7 3 10).stop = true ∧
      (∀ r ∈ ([⟨5, 0, 10⟩, ⟨7, 3, 10⟩] : List QPeriod),
        in_range 4 r.start r.stop = true → r.start ≤ (QPeriod.mk 7 3 10).start) ∧
      (∀ j2, ∀ hj2 : j2 < ([⟨5, 0, 10⟩, ⟨7, 3, 10⟩] : List QPeriod).length,
        j2 < j →
        in_range 4 (([⟨5, 0, 10⟩, ⟨7, 3, 10⟩] : List QPeriod).get ⟨j2, hj2⟩).start
          (([⟨5, 0, 10⟩, ⟨7, 3, 10⟩] : List QPeriod).get ⟨j2, hj2⟩).stop = true →
        (([⟨5, 0, 10⟩, ⟨7, 3, 10⟩] : List QPeriod).get ⟨j2, hj2⟩).start <
          (QPeriod.mk 7 3 10).start) :=
  (C1_apply_q_rules_selection [] [⟨5, 0, 10⟩, ⟨7, 3, 10⟩]).2.2.2 4 ⟨7, 3, 10⟩
    (by decide)

/-- Model of `apply_p_rules` in `domain.py`: add all matching p periods' extras to the
remanent (cumulative). -/
def apply_p_rules (transactions : List Txn) (p_periods : List PPeriod) :
    List Txn :=
  if p_periods.isEmpty then transactions
  else transactions.map (fun t =>
    let extra := ((p_periods.filter
      (fun p => in_range t.date p.start p.stop)).map (fun p => p.extra)).sum
    { t with remanent := t.remanent + extra })

/-- Model of `aggregate_k_periods` in `domain.py`: per k period, the sum of the
remanents of the transactions whose date lies in `[start, end]`. -/
def aggregate_k_periods (transactions : List Txn) (k_periods : List KPeriod) :
    List (Date × Date × ℚ) :=
  k_periods.map (fun k =>
    (k.start, k.stop,
      ((transactions.filter (fun t => in_range t.date k.start k.stop)).map
        (fun t => t.remanent)).sum))

/-- Model of `run_pipeline` in `domain.py`: parse, apply q, apply p, aggregate k. -/
def run_pipeline (expenses : List (Date × ℚ)) (q_periods : List QPeriod)
    (p_periods : List PPeriod) (k_periods : List KPeriod) :
    List Txn × List (Date × Date × ℚ) :=
  let step1 := parse_expenses expenses
  let step2 := apply_q_rules step1 q_periods
  let step3 := apply_p_rules step2 p_periods
  let k_sums := aggregate_k_periods step3 k_periods
  (step3, k_sums)

lemma txn_eta_add_zero (t : Txn) : ({ t with remanent := t.remanent + 0 } : Txn) = t := by
  cases t; simp

/-- The function `apply_p_rules` is unconditionally a map, also on the empty period
list (where the added sum is 0). -/
lemma apply_p_rules_eq_map (txns : List Txn) (ps : List PPeriod) :
    apply_p_rules txns ps = txns.map (fun t =>
      { t with remanent := t.remanent +
          ((ps.filter (fun p => in_range t.date p.start p.stop)).map
            (fun p => p.extra)).sum }) := by
  by_cases hps : ps.isEmpty
  · have hnil : ps = [] := by simpa [List.isEmpty_iff] using hps
    subst hnil
    rw [apply_p_rules]
    simp only [List.isEmpty_nil, if_true, List.filter_nil, List.map_nil,
      List.sum_nil]
    exact (List.map_id'' txn_eta_add_zero txns).symm
  · rw [apply_p_rules, if_neg hps]

/-- C4: the output remanent of `apply_p_rules` is the input remanent plus
the exact sum of the extras of all periods containing the date; the empty
period list is a no-op. -/
theorem C4_apply_p_rules_additive (txns : List Txn) (ps : List PPeriod) :
    apply_p_rules txns [] = txns ∧
    (apply_p_rules txns ps).length = txns.length ∧
    ∀ i : ℕ, ((apply_p_rules txns ps).get? i).map Txn.remanent =
      (txns.get? i).map (fun t => t.remanent +
        ((ps.filter (fun p => in_range t.date p.start p.stop)).map
          (fun p => p.extra)).sum) := by
  refine ⟨?_, ?_, ?_⟩
  · rw [apply_p_rules_eq_map]
    simp only [List.filter_nil, List.map_nil, List.sum_nil]
    exact List.map_id'' txn_eta_add_zero txns
  · rw [apply_p_rules_eq_map, List.length_map]
  · intro i
    rw [apply_p_rules_eq_map, List.get?_map]
    cases txns.get? i with
    | none => rfl
    | some t => rfl

/-- C5: `aggregate_k_periods` yields one row per window in input order,
each carrying the sum of the remanents of the transactions inside the
inclusive window (0 when none match; overlapping windows each count a
shared transaction). -/
theorem C5_aggregate_k_periods_rows (txns : List Txn) (ks : List KPeriod) :
    (aggregate_k_periods txns ks).length = ks.length ∧
    ∀ i : ℕ, (aggregate_k_periods txns ks).get? i =
      (ks.get? i).map (fun k =>
        (k.start, k.stop,
          ((txns.filter (fun t => in_range t.date k.start k.stop)).map
            (fun t => t.remanent)).sum)) := by
  constructor
  · rw [aggregate_k_periods, List.length_map]
  · intro i
    rw [aggregate_k_periods, List.get?_map]

/-- C9: the pipeline order override-then-bonus is load-bearing — on a
concrete transaction the two application orders give different remanents. -/
theorem C9_order_dependence :
    ((apply_p_rules (apply_q_rules [⟨0, 40, 100, 60⟩] [⟨50, -1, 1⟩])
        [⟨10, -1, 1⟩]).get? 0).map Txn.remanent ≠
    ((apply_q_rules (apply_p_rules [⟨0, 40, 100, 60⟩] [⟨10, -1, 1⟩])
        [⟨50, -1, 1⟩]).get? 0).map Txn.remanent := by
  have h1 : ((apply_p_rules (apply_q_rules [⟨0, 40, 100, 60⟩] [⟨50, -1, 1⟩])
      [⟨10, -1, 1⟩]).get? 0).map Txn.remanent = some 60 := by
    norm_num [apply_p_rules, apply_q_rules, in_range, sort_desc, insert_desc]
  have h2 : ((apply_q_rules (apply_p_rules [⟨0, 40, 100, 60⟩] [⟨10, -1, 1⟩])
      [⟨50, -1, 1⟩]).get? 0).map Txn.remanent = some 50 := by
    norm_num [apply_p_rules, apply_q_rules, in_range, sort_desc, insert_desc]
  rw [h1, h2]
  intro hcon
  exact absurd (Option.some.inj hcon) (by norm_num)

/-- Mapping a remanent-only update over a list leaves every other field of
every element unchanged. -/
lemma get?_map_field {α : Type} (f : Txn → Txn) (g : Txn → α)
    (hf : ∀ t, g (f t) = g t) (l : List Txn) (i : ℕ) :
    ((l.map f).get? i).map g = (l.get? i).map g := by
  rw [List.get?_map]
  cases l.get? i with
  | none => rfl
  | some t => simp [hf]

lemma p_add_preserves (ps : List PPeriod) (t : Txn) :
    ({ t with remanent := t.remanent +
        ((ps.filter (fun p => in_range t.date p.start p.stop)).map
          (fun p => p.extra)).sum } : Txn).date = t.date ∧
    ({ t with remanent := t.remanent +
        ((ps.filter (fun p => in_range t.date p.start p.stop)).map
          (fun p => p.extra)).sum } : Txn).amount = t.amount ∧
    ({ t with remanent := t.remanent +
        ((ps.filter (fun p => in_range t.date p.start p.stop)).map
          (fun p => p.extra)).sum } : Txn).ceiling = t.ceiling :=
  ⟨rfl, rfl, rfl⟩

lemma q_sub_preserves (qs : List QPeriod) (t : Txn) :
    (match choose_override t.date qs with
      | none => t
      | some q => { t with remanent := q.fixed }).date = t.date ∧
    (match choose_override t.date qs with
      | none => t
      | some q => { t with remanent := q.fixed }).amount = t.amount ∧
    (match choose_override t.date qs with
      | none => t
      | some q => { t with remanent := q.fixed }).ceiling = t.ceiling := by
  cases choose_override t.date qs <;> exact ⟨rfl, rfl, rfl⟩

/-- C10: both rule applications return a list of the same length and order,
and at every position preserve the date, amount and ceiling fields — only
the remanent may change. -/
theorem C10_rules_frame (txns : List Txn) (qs : List QPeriod)
    (ps : List PPeriod) :
    (apply_q_rules txns qs).length = txns.length ∧
    (apply_p_rules txns ps).length = txns.length ∧
    ∀ i : ℕ,
      ((apply_q_rules txns qs).get? i).map Txn.date =
        (txns.get? i).map Txn.date ∧
      ((apply_q_rules txns qs).get? i).map Txn.amount =
        (txns.get? i).map Txn.amount ∧
      ((apply_q_rules txns qs).get? i).map Txn.ceiling =
        (txns.get? i).map Txn.ceiling ∧
      ((apply_p_rules txns ps).get? i).map Txn.date =
        (txns.get? i).map Txn.date ∧
      ((apply_p_rules txns ps).get? i).map Txn.amount =
        (txns.get? i).map Txn.amount ∧
      ((apply_p_rules txns ps).get? i).map Txn.ceiling =
        (txns.get? i).map Txn.ceiling := by
  refine ⟨?_, ?_, ?_⟩
  · rw [apply_q_rules_eq_choose, List.length_map]
  · rw [apply_p_rules_eq_map, List.length_map]
  · intro i
    rw [apply_q_rules_eq_choose, apply_p_rules_eq_map]
    refine ⟨?_, ?_, ?_, ?_, ?_, ?_⟩
    · exact get?_map_field _ Txn.date (fun t => (q_sub_preserves qs t).1) txns i
    · exact get?_map_field _ Txn.amount
        (fun t => (q_sub_preserves qs t).2.1) txns i
    · exact get?_map_field _ Txn.ceiling
        (fun t => (q_sub_preserves qs t).2.2) txns i
    · exact get?_map_field _ Txn.date (fun t => (p_add_preserves ps t).1) txns i
    · exact get?_map_field _ Txn.amount
        (fun t => (p_add_preserves ps t).2.1) txns i
    · exact get?_map_field _ Txn.ceiling
        (fun t => (p_add_preserves ps t).2.2) txns i

/-! Projection engine (`src/app/returns.py`). -/

/-- Constant `NPS_RATE = 0.0711` in `returns.py`. -/
def NPS_RATE : ℚ := 711 / 10000

/-- Constant `INDEX_RATE = 0.1449` in `returns.py`. -/
def INDEX_RATE : ℚ := 1449 / 10000

/-- Constant `NPS_MAX_DEDUCTION = 200_000` in `returns.py`. -/
def NPS_MAX_DEDUCTION : ℚ := 200000

/-- Model of `TAX_SLABS` in `returns.py`: `(upper_bound, rate on the amount above
the previous slab)`; `none` models the final `float("inf")` bound. -/
def TAX_SLABS : List (Option ℚ × ℚ) :=
  [(some 0, 0), (some 700000, 0), (some 1000000, 10 / 100),
   (some 1200000, 15 / 100), (some 1500000, 20 / 100), (none, 30 / 100)]

/-- Model of `years_to_retirement` in `returns.py`: years until 60, or 5 when
already 60 or older. -/
def years_to_retirement (age : ℤ) : ℤ :=
  if age ≥ 60 then 5 else 60 - age

/-- Model of `compound_amount` in `returns.py`: `A = P * (1 + r) ^ t`, with
`years <= 0` returning the principal unchanged. -/
def compound_amount (principal rate : ℚ) (years : ℤ) : ℚ :=
  if years ≤ 0 then principal else principal * (1 + rate) ^ years.toNat

/-- Model of `inflation_adjust` in `returns.py`: `A / (1 + inflation) ^ t`, with
`years <= 0` returning the amount unchanged. -/
def inflation_adjust (amount inflation : ℚ) (years : ℤ) : ℚ :=
  if years ≤ 0 then amount else amount / (1 + inflation) ^ years.toNat

/-- Comparison `income <= bound`, where `none` is the infinite bound. -/
def le_bound (income : ℚ) : Option ℚ → Bool
  | some b => decide (income ≤ b)
  | none => true

/-- Value `min(income, bound)`, where `none` is the infinite bound. -/
def min_bound (income : ℚ) : Option ℚ → ℚ
  | some b => min income b
  | none => income

/-- Numeric value of a slab bound used as `prev_bound`.  The infinite
bound only ever becomes `prev_bound` after the last slab, where the loop
has already returned, so its value here is never read. -/
def val_bound : Option ℚ → ℚ
  | some b => b
  | none => 0

/-- The slab loop of `tax_on_income`, including the `break` on
`income <= prev_bound` at the top of each iteration. -/
def tax_loop (income : ℚ) : List (Option ℚ × ℚ) → Option ℚ → ℚ → ℚ
  | [], _, tax => tax
  | (bound, rate) :: rest, prev_bound, tax =>
    if le_bound income prev_bound then tax
    else tax_loop income rest bound
      (tax + (min_bound income bound - val_bound prev_bound) * rate)

/-- Model of `tax_on_income` in `returns.py`: zero for non-positive income, the
slab loop otherwise (with `prev_bound` starting at 0). -/
def tax_on_income (income : ℚ) : ℚ :=
  if income ≤ 0 then 0 else tax_loop income TAX_SLABS (some 0) 0

/-- Modelled from the spec table for C2: each band taxes only the portion
of income inside it, clamped at zero — 10% on 700,000–1,000,000, 15% on
1,000,000–1,200,000, 20% on 1,200,000–1,500,000, 30% above 1,500,000. -/
def tax_spec (income : ℚ) : ℚ :=
  max 0 (min income 1000000 - 700000) * (10 / 100)
  + max 0 (min income 1200000 - 1000000) * (15 / 100)
  + max 0 (min income 1500000 - 1200000) * (20 / 100)
  + max 0 (income - 1500000) * (30 / 100)

lemma tax_eq_spec (income : ℚ) : tax_on_income income = tax_spec income := by
  rw [tax_on_income]
  by_cases h0 : income ≤ 0
  · rw [if_pos h0, tax_spec]
    have e1 : min income 1000000 = income := min_eq_left (by linarith)
    have e2 : min income 1200000 = income := min_eq_left (by linarith)
    have e3 : min income 1500000 = income := min_eq_left (by linarith)
    rw [e1, e2, e3]
    have m1 : max 0 (income - 700000) = 0 := max_eq_left (by linarith)
    have m2 : max 0 (income - 1000000) = 0 := max_eq_left (by linarith)
    have m3 : max 0 (income - 1200000) = 0 := max_eq_left (by linarith)
    have m4 : max 0 (income - 1500000) = 0 := max_eq_left (by linarith)
    rw [m1, m2, m3, m4]
    ring
  · rw [if_neg h0]
    simp only [TAX_SLABS, tax_loop, le_bound, min_bound, val_bound,
      decide_eq_true_eq]
    simp only [if_neg h0]
    by_cases h1 : income ≤ 700000
    · rw [if_pos h1, tax_spec]
      have e1 : min income 1000000 = income := min_eq_left (by linarith)
      have e2 : min income 1200000 = income := min_eq_left (by linarith)
      have e3 : min income 1500000 = income := min_eq_left (by linarith)
      rw [e1, e2, e3]
      have m1 : max 0 (income - 700000) = 0 := max_eq_left (by linarith)
      have m2 : max 0 (income - 1000000) = 0 := max_eq_left (by linarith)
      have m3 : max 0 (income - 1200000) = 0 := max_eq_left (by linarith)
      have m4 : max 0 (income - 1500000) = 0 := max_eq_left (by linarith)
      rw [m1, m2, m3, m4]
      ring
    · rw [if_neg h1]
      by_cases h2 : income ≤ 1000000
      · rw [if_pos h2, tax_spec]
        have b1 : (700000 : ℚ) ≤ min income 1000000 :=
          le_min (by linarith) (by norm_num)
        have m1 : max 0 (min income 1000000 - 700000) =
            min income 1000000 - 700000 := max_eq_right (by linarith)
        have e2 : min income 1200000 = income := min_eq_left (by linarith)
        have e3 : min income 1500000 = income := min_eq_left (by linarith)
        rw [m1, e2, e3]
        have m2 : max 0 (income - 1000000) = 0 := max_eq_left (by linarith)
        have m3 : max 0 (income - 1200000) = 0 := max_eq_left (by linarith)
        have m4 : max 0 (income - 1500000) = 0 := max_eq_left (by linarith)
        rw [m2, m3, m4]
        ring
      · rw [if_neg h2]
        by_cases h3 : income ≤ 1200000
        · rw [if_pos h3, tax_spec]
          have e1 : min income 1000000 = (1000000 : ℚ) :=
            min_eq_right (by linarith)
          have b2 : (1000000 : ℚ) ≤ min income 1200000 :=
            le_min (by linarith) (by norm_num)
          have m2 : max 0 (min income 1200000 - 1000000) =
              min income 1200000 - 1000000 := max_eq_right (by linarith)
          have e3 : min income 1500000 = income := min_eq_left (by linarith)
          rw [e1, m2, e3]
          have m1 : max 0 ((1000000 : ℚ) - 700000) = 300000 := by norm_num
          have m3 : max 0 (income - 1200000) = 0 := max_eq_left (by linarith)
          have m4 : max 0 (income - 1500000) = 0 := max_eq_left (by linarith)
          rw [m1, m3, m4]
          ring
        · rw [if_neg h3]
          by_cases h4 : income ≤ 1500000
          · rw [if_pos h4, tax_spec]
            have e1 : min income 1000000 = (1000000 : ℚ) :=
              min_eq_right (by linarith)
            have e2 : min income 1200000 = (1200000 : ℚ) :=
              min_eq_right (by linarith)
            have b3 : (1200000 : ℚ) ≤ min income 1500000 :=
              le_min (by linarith) (by norm_num)
            have m3 : max 0 (min income 1500000 - 1200000) =
                min income 1500000 - 1200000 := max_eq_right (by linarith)
            rw [e1, e2, m3]
            have m1 : max 0 ((1000000 : ℚ) - 700000) = 300000 := by norm_num
            have m2 : max 0 ((1200000 : ℚ) - 1000000) = 200000 := by norm_num
            have m4 : max 0 (income - 1500000) = 0 := max_eq_left (by linarith)
            rw [m1, m2, m4]
            ring
          · rw [if_neg h4, tax_spec]
            have e1 : min income 1000000 = (1000000 : ℚ) :=
              min_eq_right (by linarith)
            have e2 : min income 1200000 = (1200000 : ℚ) :=
              min_eq_right (by linarith)
            have e3 : min income 1500000 = (1500000 : ℚ) :=
              min_eq_right (by linarith)
            rw [e1, e2, e3]
            have m1 : max 0 ((1000000 : ℚ) - 700000) = 300000 := by norm_num
            have m2 : max 0 ((1200000 : ℚ) - 1000000) = 200000 := by norm_num
            have m3 : max 0 ((1500000 : ℚ) - 1200000) = 300000 := by norm_num
            have m4 : max 0 (income - 1500000) = income - 1500000 :=
              max_eq_right (by linarith)
            rw [m1, m2, m3, m4]
            ring

lemma tax_spec_mono {x y : ℚ} (h : x ≤ y) : tax_spec x ≤ tax_spec y := by
  rw [tax_spec, tax_spec]
  have k1 : min x 1000000 ≤ min y 1000000 := min_le_min h le_rfl
  have k2 : min x 1200000 ≤ min y 1200000 := min_le_min h le_rfl
  have k3 : min x 1500000 ≤ min y 1500000 := min_le_min h le_rfl
  have m1 : max 0 (min x 1000000 - 700000) ≤ max 0 (min y 1000000 - 700000) :=
    max_le_max le_rfl (by linarith)
  have m2 : max 0 (min x 1200000 - 1000000) ≤
      max 0 (min y 1200000 - 1000000) := max_le_max le_rfl (by linarith)
  have m3 : max 0 (min x 1500000 - 1200000) ≤
      max 0 (min y 1500000 - 1200000) := max_le_max le_rfl (by linarith)
  have m4 : max 0 (x - 1500000) ≤ max 0 (y - 1500000) :=
    max_le_max le_rfl (by linarith)
  have p1 := mul_le_mul_of_nonneg_right m1 (by norm_num : (0:ℚ) ≤ 10 / 100)
  have p2 := mul_le_mul_of_nonneg_right m2 (by norm_num : (0:ℚ) ≤ 15 / 100)
  have p3 := mul_le_mul_of_nonneg_right m3 (by norm_num : (0:ℚ) ≤ 20 / 100)
  have p4 := mul_le_mul_of_nonneg_right m4 (by norm_num : (0:ℚ) ≤ 30 / 100)
  linarith

/-- C2: `tax_on_income` computes the progressive slab schedule in which
each band taxes only the portion of income inside it (0% to 700,000, 10%
to 1,000,000, 15% to 1,200,000, 20% to 1,500,000, 30% above), and every
income ≤ 0 yields exactly zero. -/
theorem C2_tax_on_income_progressive (income : ℚ) :
    tax_on_income income = tax_spec income ∧
    (income ≤ 0 → tax_on_income income = 0) :=
  ⟨tax_eq_spec income,
   fun h => by rw [tax_on_income, if_pos h]⟩

/-- C2 witness: a negative income taxes to zero. -/
theorem C2_witness : tax_on_income (-3) = 0 :=
  (C2_tax_on_income_progressive (-3)).2 (by norm_num)

/-- C7: `tax_on_income` is monotone non-decreasing, and is zero at zero. -/
theorem C7_tax_monotone :
    (∀ x y : ℚ, x ≤ y → tax_on_income x ≤ tax_on_income y) ∧
    tax_on_income 0 = 0 := by
  constructor
  · intro x y h
    rw [tax_eq_spec, tax_eq_spec]
    exact tax_spec_mono h
  · rw [tax_on_income, if_pos le_rfl]

/-- C7 witness at `x = 100`, `y = 2000000`. -/
theorem C7_witness : tax_on_income 100 ≤ tax_on_income 2000000 :=
  C7_tax_monotone.1 100 2000000 (by norm_num)

/-- Model of `nps_deduction` in `returns.py`:
`min(invested, 0.1 * annual_income, 200_000)`. -/
def nps_deduction (invested annual_income : ℚ) : ℚ :=
  min invested (min (1 / 10 * annual_income) NPS_MAX_DEDUCTION)

/-- Model of `tax_benefit` in `returns.py`:
`Tax(income) - Tax(income - NPS_Deduction)`. -/
def tax_benefit (annual_income nps_deduction_amount : ℚ) : ℚ :=
  tax_on_income annual_income -
    tax_on_income (annual_income - nps_deduction_amount)

/-- The product kind literal of `compute_return`. -/
inductive Kind where
  | nps
  | index
deriving DecidableEq

/-- Model of `compute_return` in `returns.py`: inflation-adjusted return, with the
tax benefit for the NPS product only; the third component is the raw
future value. -/
def compute_return (amount : ℚ) (age : ℤ) (inflation : ℚ) (kind : Kind)
    (annual_income : ℚ) : ℚ × Option ℚ × ℚ :=
  let t := years_to_retirement age
  let rate := match kind with
    | Kind.nps => NPS_RATE
    | Kind.index => INDEX_RATE
  let future := compound_amount amount rate t
  let real := inflation_adjust future inflation t
  let profit := match kind with
    | Kind.nps => real - amount
    | Kind.index => real
  let tax_ben : Option ℚ := match kind with
    | Kind.nps =>
        some (tax_benefit annual_income (nps_deduction amount annual_income))
    | Kind.index => none
  (profit, tax_ben, future)

/-- C6: `compute_return` composes `years_to_retirement` (60 − age below
60, fixed 5 from 60 on), `compound_amount` with the product rate,
`inflation_adjust`, subtracts the principal for the NPS product only, and
attaches the tax benefit for the NPS product and `none` for the index
product. -/
theorem C6_compute_return_formulas (amount : ℚ) (age : ℤ) (inflation : ℚ)
    (annual_income : ℚ) :
    (age < 60 → years_to_retirement age = 60 - age) ∧
    (60 ≤ age → years_to_retirement age = 5) ∧
    compute_return amount age inflation Kind.nps annual_income =
      (inflation_adjust
          (compound_amount amount NPS_RATE (years_to_retirement age))
          inflation (years_to_retirement age) - amount,
       some (tax_benefit annual_income (nps_deduction amount annual_income)),
       compound_amount amount NPS_RATE (years_to_retirement age)) ∧
    compute_return amount age inflation Kind.index annual_income =
      (inflation_adjust
          (compound_amount amount INDEX_RATE (years_to_retirement age))
          inflation (years_to_retirement age),
       none,
       compound_amount amount INDEX_RATE (years_to_retirement age)) := by
  refine ⟨?_, ?_, rfl, rfl⟩
  · intro h
    rw [years_to_retirement, if_neg (by omega)]
  · intro h
    rw [years_to_retirement, if_pos (by omega)]

/-- C6 witness: horizons at ages 30 and 65. -/
theorem C6_witness : years_to_retirement 30 = 30 ∧ years_to_retirement 65 = 5 := by
  constructor
  · have h := (C6_compute_return_formulas 0 30 0 0).1 (by norm_num)
    rw [h]; norm_num
  · exact (C6_compute_return_formulas 0 65 0 0).2.1 (by norm_num)

end AutoSavings
